import Mathlib

/-!
# Verification of the qtcodes rotated-surface-code lattice logic

Shallow embedding of `qtcodes/circuits/rotated_surface.py`
(`_RotatedLattice`): parameter validation, plaquette geometry
construction (`_set_geometry`), final-stabilizer / logical-readout
extraction, and syndrome-change parsing (`parse_readout`).

Conventions mirrored from the source:
* `d = (dh, dw)` with `H = 0`, `W = 1`; `num_syn = (num_syn_X, num_syn_Z)`
  with `SYNX = 0`, `SYNZ = 1` (see the comment above `num_syn` in
  `_params_validate_and_generate`).
* Data-qubit indices are row-major over a `dh × dw` grid.
* Classical bitstrings are modelled as `List Bool`, most significant
  character first exactly as they appear in the Python string; Python's
  `int(s, base=2)` is `bitsToNat`.
* Python integers are modelled as `Int` where a value can be negative
  (parameter validation), and as `Nat` where the source only ever holds
  non-negative values (loop counters, bit masks).  Python `//` and `%`
  on `Int` are `Int.ediv` / `Int.emod`: every divisor in the modelled
  code is positive, where floor and Euclidean division agree.
-/

namespace Qtcodes

/-! ## Parameter validation (`_params_validate_and_generate`) -/

/-- The `d` parameter: either a single number or an `(dh, dw)` pair,
as accepted by `_params_validate_and_generate`. -/
inductive DParam where
  | single (d : Int)
  | pair (dh dw : Int)
deriving Repr, DecidableEq

/-- "make square lattice if only one dimension was passed in". -/
def DParam.toPair : DParam → Int × Int
  | .single d => (d, d)
  | .pair dh dw => (dh, dw)

/-- The calculated params of `_params_validate_and_generate`
(the fields the verified claims are about). -/
structure LatticeParams where
  d : Int × Int
  num_data : Int
  num_syn : Int × Int
deriving Repr, DecidableEq

/-- `_params_validate_and_generate`: raises `LatticeError` when a
dimension fails `% 2 == 1`, otherwise computes `num_data` and
`num_syn = (num_syn_X, num_syn_Z)`. -/
def paramsValidateAndGenerate (dp : DParam) : Except String LatticeParams :=
  let p := dp.toPair
  let dh := p.1
  let dw := p.2
  if dh % 2 ≠ 1 ∨ dw % 2 ≠ 1 then
    Except.error "Surface code distance must be odd in all dimensions!"
  else
    Except.ok
      { d := (dh, dw)
        num_data := dh * dw
        num_syn := ((((dh + 1) / 2)) * (dw - 1), (((dw + 1) / 2)) * (dh - 1)) }

/-! ## Geometry (`_set_geometry`) -/

/-- `num_syn[SYNX]` for non-negative dimensions. -/
def numSynX (dh dw : Nat) : Nat := ((dh + 1) / 2) * (dw - 1)

/-- `num_syn[SYNZ]` for non-negative dimensions. -/
def numSynZ (dh dw : Nat) : Nat := ((dw + 1) / 2) * (dh - 1)

/-- `num_data` for non-negative dimensions. -/
def numData (dh dw : Nat) : Nat := dh * dw

/-- One plaquette entry `[syn, top_l, top_r, bot_l, bot_r]` of the
geometry table; `none` is the source's `None` (boundary truncation). -/
structure Plaq where
  syn : Nat
  top_l : Option Int
  top_r : Option Int
  bot_l : Option Int
  bot_r : Option Int
deriving Repr, DecidableEq

/-- The four data-qubit references of a plaquette (`idx_list[1:]`). -/
def Plaq.refs (p : Plaq) : List (Option Int) := [p.top_l, p.top_r, p.bot_l, p.bot_r]

/-- Body of the `mx` loop of `_set_geometry` for syndrome index `syn`. -/
def mxPlaq (dh dw : Nat) (syn : Nat) : Plaq :=
  let per_row_x := (dw - 1) / 2
  let row := syn / per_row_x
  let offset := syn % per_row_x
  let start : Int := ((row : Int) - 1) * (dw : Int)
  let row_parity := row % 2
  if row = 0 then  -- First row
    { syn := syn, top_l := none, top_r := none,
      bot_l := some ((syn : Int) * 2), bot_r := some ((syn : Int) * 2 + 1) }
  else if row = dh then  -- Last row
    { syn := syn,
      top_l := some (start + (offset : Int) * 2 + 1),
      top_r := some (start + (offset : Int) * 2 + 2),
      bot_l := none, bot_r := none }
  else
    { syn := syn,
      top_l := some (start + (offset : Int) * 2 + (row_parity : Int)),
      top_r := some (start + (offset : Int) * 2 + (row_parity : Int) + 1),
      bot_l := some (start + (dw : Int) + (offset : Int) * 2 + (row_parity : Int)),
      bot_r := some (start + (dw : Int) + (offset : Int) * 2 + (row_parity : Int) + 1) }

/-- Body of the `mz` loop of `_set_geometry` for syndrome index `syn`. -/
def mzPlaq (dw : Nat) (syn : Nat) : Plaq :=
  let per_row_z := (dw + 1) / 2
  let row := syn / per_row_z
  let offset := syn % per_row_z
  let start : Int := (row : Int) * (dw : Int)
  let row_parity := row % 2
  let top_l : Int := start + (offset : Int) * 2 - (row_parity : Int)
  let top_r : Int := start + (offset : Int) * 2 - (row_parity : Int) + 1
  let bot_l : Int := start + (dw : Int) + (offset : Int) * 2 - (row_parity : Int)
  let bot_r : Int := start + (dw : Int) + (offset : Int) * 2 - (row_parity : Int) + 1
  -- Overwrite edge column syndromes
  if row_parity = 0 ∧ offset = per_row_z - 1 then  -- Last column
    { syn := syn, top_l := some top_l, top_r := none,
      bot_l := some bot_l, bot_r := none }
  else if row_parity = 1 ∧ offset = 0 then  -- First column
    { syn := syn, top_l := none, top_r := some top_r,
      bot_l := none, bot_r := some bot_r }
  else
    { syn := syn, top_l := some top_l, top_r := some top_r,
      bot_l := some bot_l, bot_r := some bot_r }

/-- `geometry["mx"]`. -/
def geometryMx (dh dw : Nat) : List Plaq :=
  (List.range (numSynX dh dw)).map (mxPlaq dh dw)

/-- `geometry["mz"]`. -/
def geometryMz (dh dw : Nat) : List Plaq :=
  (List.range (numSynZ dh dw)).map (mzPlaq dw)

/-! ## Bitstrings -/

/-- `int(q)` for a single binary character. -/
def bitVal (b : Bool) : Nat := if b then 1 else 0

/-- `int(s, base=2)`: value of a bitstring, most significant first. -/
def bitsToNat (bits : List Bool) : Nat :=
  bits.foldl (fun acc b => 2 * acc + bitVal b) 0

/-- `readout_values[idx] if idx is not None else 0` (the
`Optional[int]` data-qubit reference of a plaquette). -/
def refVal (vals : List Nat) : Option Int → Nat
  | none => 0
  | some idx => vals.getD idx.toNat 0

/-- `sum([...]) % 2` over one plaquette's references. -/
def plaqParity (vals : List Nat) (p : Plaq) : Nat :=
  (refVal vals p.top_l + refVal vals p.top_r + refVal vals p.bot_l +
    refVal vals p.bot_r) % 2

/-- The `logical_readout` accumulation loop: `(acc + vals[idx]) % 2`
over a list of data-qubit indices. -/
def parityFold (vals : List Nat) (idxs : List Nat) : Nat :=
  idxs.foldl (fun acc idx => (acc + vals.getD idx 0) % 2) 0

/-! ## `extract_final_stabilizer_and_logical_readout_x` / `_z` -/

/-- `extract_final_stabilizer_and_logical_readout_x`: from the
full-lattice readout string (length `num_data`) and the previous round's
syndrome string, rebuild the X stabilizer bits, splice them in front of
the previous round's Z bits, and fold the leftmost-column data qubits
(`range(0, num_data, dw)`, i.e. `0, dw, 2*dw, ...`) into the X logical
readout. -/
def extractFinalX (dh dw : Nat) (final_readout prev_syndrome : List Bool) :
    Nat × List Bool :=
  let readout_values := (final_readout.map bitVal).reverse
  let x_stabilizer :=
    (geometryMx dh dw).foldl
      (fun acc p => (plaqParity readout_values p == 1) :: acc) ([] : List Bool)
  let stabilizer_str := x_stabilizer ++ prev_syndrome.drop (numSynX dh dw)
  let logical_readout := parityFold readout_values (List.range' 0 dh dw)
  (logical_readout, stabilizer_str)

/-- `extract_final_stabilizer_and_logical_readout_z`: as `extractFinalX`
but rebuilding the Z stabilizer bits, splicing them behind the previous
round's X bits, and folding the topmost-row data qubits (`range(dw)`). -/
def extractFinalZ (dh dw : Nat) (final_readout prev_syndrome : List Bool) :
    Nat × List Bool :=
  let readout_values := (final_readout.map bitVal).reverse
  let z_stabilizer :=
    (geometryMz dh dw).foldl
      (fun acc p => (plaqParity readout_values p == 1) :: acc) ([] : List Bool)
  let stabilizer_str := prev_syndrome.take (numSynX dh dw) ++ z_stabilizer
  let logical_readout := parityFold readout_values (List.range dw)
  (logical_readout, stabilizer_str)

/-- `extract_final_stabilizer_and_logical_readout`: dispatches on
`readout_type`; any value other than `"X"` / `"Z"` falls through the
`if/elif` and yields Python `None`, which the caller cannot unpack
(modelled as `none`). -/
def extractFinal (dh dw : Nat) (final_readout prev_syndrome : List Bool)
    (readout_type : String) : Option (Nat × List Bool) :=
  if readout_type = "X" then some (extractFinalX dh dw final_readout prev_syndrome)
  else if readout_type = "Z" then some (extractFinalZ dh dw final_readout prev_syndrome)
  else none

/-! ## `parse_readout` -/

/-- `[a ^ b for (a, b) in zip(int_syndromes, int_syndromes[1:])]`. -/
def xorChanges (ints : List Nat) : List Nat :=
  List.zipWith (· ^^^ ·) ints ints.tail

/-- The X-syndrome event loop body of `parse_readout`: for each set bit
`loc` of `syndrome`, emit `(T, -0.5 + loc // per_row_x,
(0.5 + (loc // per_row_x) % 2) + (loc % per_row_x) * 2)` with
`per_row_x = dw // 2`. -/
def xEventsAt (dw numX : Nat) (T : Nat) (syndrome : Nat) : List (ℚ × ℚ × ℚ) :=
  let per_row_x := dw / 2
  (List.range numX).filterMap fun loc =>
    if syndrome &&& (1 <<< loc) ≠ 0 then
      some ((T : ℚ),
        -(1 / 2 : ℚ) + ((loc / per_row_x : Nat) : ℚ),
        ((1 / 2 : ℚ) + (((loc / per_row_x) % 2 : Nat) : ℚ)) +
          ((loc % per_row_x : Nat) : ℚ) * 2)
    else none

/-- The Z-syndrome event loop body of `parse_readout`: for each set bit
`loc` of `syndrome`, emit `(T, 0.5 + loc // per_row_z,
(0.5 - (loc // per_row_z) % 2) + (loc % per_row_z) * 2)` with
`per_row_z = dw // 2 + 1`. -/
def zEventsAt (dw numZ : Nat) (T : Nat) (syndrome : Nat) : List (ℚ × ℚ × ℚ) :=
  let per_row_z := dw / 2 + 1
  (List.range numZ).filterMap fun loc =>
    if syndrome &&& (1 <<< loc) ≠ 0 then
      some ((T : ℚ),
        (1 / 2 : ℚ) + ((loc / per_row_z : Nat) : ℚ),
        ((1 / 2 : ℚ) - (((loc / per_row_z) % 2 : Nat) : ℚ)) +
          ((loc % per_row_z : Nat) : ℚ) * 2)
    else none

/-- First phase of `parse_readout`: split off `chunks[0]`.  A chunk of
length `> 1` is a full-lattice readout (the `assert readout_type is not
None` branch, requiring `chunks[1]` to exist); a chunk of length `1` is
a direct logical readout.  Failures (assertion failure, unpacking
`None`, `IndexError`, `int("")`) are `none`. -/
def parseLogical (dh dw : Nat) (chunks : List (List Bool))
    (readout_type : Option String) : Option (Nat × List (List Bool)) :=
  match chunks with
  | [] => none
  | c0 :: rest =>
    if c0.length > 1 then
      match readout_type, rest with
      | some rt, c1 :: _ =>
        match extractFinal dh dw c0 c1 rt with
        | some (logical_readout, final_stabilizer) =>
          some (logical_readout, final_stabilizer :: rest)
        | none => none
      | _, _ => none
    else if c0.length = 1 then
      some (bitsToNat c0, rest)
    else none

/-- `parse_readout`: the input string is already split on `" "` into
`chunks` (most recent round first).  Returns the logical readout and
the `(time, row, col)` syndrome-change events keyed `"X"` / `"Z"`. -/
def parse_readout (dh dw : Nat) (chunks : List (List Bool))
    (readout_type : Option String) :
    Option (Nat × List (ℚ × ℚ × ℚ) × List (ℚ × ℚ × ℚ)) :=
  match parseLogical dh dw chunks readout_type with
  | none => none
  | some (logical_readout, chunks2) =>
    let int_syndromes := (chunks2.reverse).map bitsToNat
    let xor_syndromes := xorChanges int_syndromes
    let nX := numSynX dh dw
    let nZ := numSynZ dh dw
    let mask_x := (2 ^ nX - 1) * 2 ^ nZ  -- int("1"*nX + "0"*nZ, 2)
    let mask_z := 2 ^ nZ - 1             -- int("1"*nZ, 2)
    let x_syndromes := xor_syndromes.map (fun x => (x &&& mask_x) >>> nZ)
    let z_syndromes :=
      if nZ = 0 then ([] : List Nat)     -- mask_z == ""
      else xor_syndromes.map (fun x => x &&& mask_z)
    let X := (x_syndromes.enum).flatMap (fun p => xEventsAt dw nX p.1 p.2)
    let Z := (z_syndromes.enum).flatMap (fun p => zEventsAt dw nZ p.1 p.2)
    some (logical_readout, X, Z)

/-- Does `_params_validate_and_generate` raise `LatticeError`? -/
def raisesLatticeError (dp : DParam) : Bool :=
  match paramsValidateAndGenerate dp with
  | .error _ => true
  | .ok _ => false

/-! ## Theorems -/

/-- `LatticeError` is raised exactly when one of the two (promoted)
dimensions is even. -/
theorem validation_even_iff (dh dw : Int) :
    raisesLatticeError (.pair dh dw) = true ↔ (Even dh ∨ Even dw) := by
  simp only [raisesLatticeError, paramsValidateAndGenerate, DParam.toPair]
  by_cases hcond : dh % 2 ≠ 1 ∨ dw % 2 ≠ 1
  · rw [if_pos hcond]
    constructor
    · intro _
      rcases hcond with h | h
      · exact Or.inl (Int.even_iff.mpr (by omega))
      · exact Or.inr (Int.even_iff.mpr (by omega))
    · intro _
      rfl
  · rw [if_neg hcond]
    push_neg at hcond
    constructor
    · intro hfalse
      exact absurd hfalse Bool.false_ne_true
    · rintro (h | h) <;> rw [Int.even_iff] at h <;>
        exact absurd h (by omega)

/-- **C7**: Parameter validation raises `LatticeError` if and only if at
least one lattice dimension is even: it raises for `d=(4,3)`, `d=2`, and
any configuration with an even component, and succeeds (with `d` promoted
to an int pair) for `d=3`, `d=(3,5)`, and `d=7`. -/
theorem c7_lattice_error_iff_even_dimension :
    (∀ dp : DParam,
      raisesLatticeError dp = true ↔ (Even dp.toPair.1 ∨ Even dp.toPair.2)) ∧
    raisesLatticeError (.pair 4 3) = true ∧
    raisesLatticeError (.single 2) = true ∧
    paramsValidateAndGenerate (.single 3) =
      Except.ok { d := (3, 3), num_data := 9, num_syn := (4, 4) } ∧
    paramsValidateAndGenerate (.pair 3 5) =
      Except.ok { d := (3, 5), num_data := 15, num_syn := (8, 6) } ∧
    paramsValidateAndGenerate (.single 7) =
      Except.ok { d := (7, 7), num_data := 49, num_syn := (24, 24) } := by
  refine ⟨fun dp => ?_, rfl, rfl, rfl, rfl, rfl⟩
  rcases dp with d | ⟨dh, dw⟩
  · exact validation_even_iff d d
  · exact validation_even_iff dh dw

/-- **C10**: Dimension validation only tests oddness via `% 2 != 1` and
never checks positivity: `d=(-3,3)` and `d=-3` raise no `LatticeError`,
and construction proceeds with `num_data` and `num_syn` computed from
the negative dimensions (the data model requires odd *positive*
integers). -/
theorem c10_negative_odd_dimensions_accepted :
    paramsValidateAndGenerate (.pair (-3) 3) =
      Except.ok { d := (-3, 3), num_data := -9, num_syn := (-2, -8) } ∧
    paramsValidateAndGenerate (.single (-3)) =
      Except.ok { d := (-3, -3), num_data := 9, num_syn := (4, 4) } :=
  ⟨rfl, rfl⟩

/-- **C2**: For every pair of odd positive dimensions `(dh, dw)` accepted
at construction, the computed parameters satisfy `num_data = dh*dw`,
`num_syn_X = ((dh+1)//2)*(dw-1)`, and `num_syn_Z = ((dw+1)//2)*(dh-1)`. -/
theorem c2_param_formulas (dh dw : Int) (hh : Odd dh) (hw : Odd dw)
    (hhpos : 0 < dh) (hwpos : 0 < dw) :
    paramsValidateAndGenerate (.pair dh dw) =
      Except.ok { d := (dh, dw), num_data := dh * dw,
                  num_syn := (((dh + 1) / 2) * (dw - 1),
                              ((dw + 1) / 2) * (dh - 1)) } := by
  simp only [paramsValidateAndGenerate, DParam.toPair]
  rw [if_neg]
  push_neg
  exact ⟨Int.odd_iff.mp hh, Int.odd_iff.mp hw⟩

/-- Witness for `c2_param_formulas` at `(dh, dw) = (3, 5)`. -/
theorem c2_param_formulas_witness :
    paramsValidateAndGenerate (.pair 3 5) =
      Except.ok { d := ((3 : Int), (5 : Int)), num_data := (3 : Int) * 5,
                  num_syn := ((((3 : Int) + 1) / 2) * (5 - 1),
                              (((5 : Int) + 1) / 2) * (3 - 1)) } :=
  c2_param_formulas 3 5 ⟨1, by norm_num⟩ ⟨2, by norm_num⟩ (by norm_num) (by norm_num)

/-- **C8**: When `parse_readout` receives a readout string whose first
chunk has length greater than 1 (a full-lattice readout), it fails
whenever `readout_type` is omitted (`None`) or is not exactly `"X"` or
`"Z"`.  The failure is confined to the parse call: the geometry table is
a pure function of the dimensions (`parse_readout` never writes it). -/
theorem c8_full_lattice_readout_requires_axis (dh dw : Nat)
    (c0 : List Bool) (rest : List (List Bool)) (readout_type : Option String)
    (hlen : 1 < c0.length)
    (hrt : readout_type = none ∨
      ∀ s, readout_type = some s → s ≠ "X" ∧ s ≠ "Z") :
    parse_readout dh dw (c0 :: rest) readout_type = none := by
  have hpl : parseLogical dh dw (c0 :: rest) readout_type = none := by
    simp only [parseLogical, if_pos hlen]
    rcases hrt with h | h
    · subst h
      rfl
    · rcases readout_type with _ | s
      · rfl
      · rcases rest with _ | ⟨c1, rest'⟩
        · rfl
        · obtain ⟨hX, hZ⟩ := h s rfl
          simp only [extractFinal, if_neg hX, if_neg hZ]
  simp only [parse_readout, hpl]

/-- Witness for `c8_full_lattice_readout_requires_axis`: a `d=3`
full-lattice readout chunk with `readout_type = none`. -/
theorem c8_full_lattice_readout_requires_axis_witness :
    parse_readout 3 3
      (List.replicate 9 false :: [List.replicate 8 false]) none = none :=
  c8_full_lattice_readout_requires_axis 3 3 (List.replicate 9 false)
    [List.replicate 8 false] none (by decide) (Or.inl rfl)

/-! ### Helper lemmas for `parse_readout` on a single-flip history -/

/-- A syndrome whose value is `0` produces no X events. -/
theorem xEventsAt_zero (dw numX T : Nat) : xEventsAt dw numX T 0 = [] := by
  simp [xEventsAt]

/-- A syndrome whose value is `0` produces no Z events. -/
theorem zEventsAt_zero (dw numZ T : Nat) : zEventsAt dw numZ T 0 = [] := by
  simp [zEventsAt]

/-- XOR of consecutive entries of a constant history with one final
change: a single spike at the last time step. -/
theorem xorChanges_replicate_zero_append (n v : Nat) :
    xorChanges (List.replicate (n + 1) 0 ++ [v]) = List.replicate n 0 ++ [v] := by
  induction n with
  | zero => simp [xorChanges]
  | succ m ih =>
    rw [List.replicate_succ, List.cons_append, xorChanges, List.tail_cons]
    have hne : List.replicate (m + 1) (0 : Nat) ++ [v] =
        0 :: (List.replicate m 0 ++ [v]) := by
      rw [List.replicate_succ, List.cons_append]
    calc List.zipWith (· ^^^ ·) (0 :: (List.replicate (m + 1) 0 ++ [v]))
          (List.replicate (m + 1) 0 ++ [v])
        = (0 ^^^ 0) :: List.zipWith (· ^^^ ·) (List.replicate (m + 1) 0 ++ [v])
            (List.replicate m 0 ++ [v]) := by
          conv_lhs => rw [hne]
          rw [List.zipWith_cons_cons, ← hne]
      _ = 0 :: xorChanges (List.replicate (m + 1) 0 ++ [v]) := by
          rw [Nat.xor_self, xorChanges, hne, List.tail_cons]
      _ = 0 :: (List.replicate m 0 ++ [v]) := by rw [ih]
      _ = List.replicate (m + 1) 0 ++ [v] := by
          rw [List.replicate_succ, List.cons_append]

/-- Flat-mapping an event generator over the enumeration of a history
that is `0` everywhere except a final value `v` yields exactly the events
of `v` at the last time step. -/
theorem flatMap_enumFrom_spike {α : Type} (g : Nat → Nat → List α)
    (hg : ∀ t, g t 0 = []) :
    ∀ (n s v : Nat),
      (List.enumFrom s (List.replicate n 0 ++ [v])).flatMap
        (fun p => g p.1 p.2) = g (s + n) v := by
  intro n
  induction n with
  | zero =>
    intro s v
    simp [List.enumFrom]
  | succ m ih =>
    intro s v
    rw [List.replicate_succ, List.cons_append, List.enumFrom_cons]
    simp only [List.flatMap_cons, hg s, List.nil_append, ih (s + 1) v]
    congr 1
    omega

/-- `parse_readout` on a `d=3` history that is all-zero for `T+1` rounds
and then changes to the bits of `flip`: the events are exactly those of
the single change at time step `T`. -/
theorem parse_readout_d3_spike (T : Nat) (flip : List Bool) :
    parse_readout 3 3
      ([false] :: flip :: List.replicate (T + 1) (List.replicate 8 false))
      none =
    some (0, xEventsAt 3 4 T ((bitsToNat flip &&& 240) >>> 4),
      zEventsAt 3 4 T (bitsToNat flip &&& 15)) := by
  have hpl : parseLogical 3 3
      ([false] :: flip :: List.replicate (T + 1) (List.replicate 8 false))
      none =
      some (0, flip :: List.replicate (T + 1) (List.replicate 8 false)) := rfl
  have hz : bitsToNat (List.replicate 8 false) = 0 := rfl
  simp only [parse_readout, hpl]
  rw [List.reverse_cons, List.reverse_replicate, List.map_append,
    List.map_replicate, hz]
  simp only [List.map_cons, List.map_nil]
  rw [xorChanges_replicate_zero_append T (bitsToNat flip)]
  have hnx : numSynX 3 3 = 4 := rfl
  have hnz : numSynZ 3 3 = 4 := rfl
  rw [hnx, hnz]
  have hmx : ((2 ^ 4 - 1) * 2 ^ 4 : Nat) = 240 := rfl
  have hmz : ((2 ^ 4 - 1) : Nat) = 15 := rfl
  rw [hmx, hmz, if_neg (by omega : ¬ (4 : Nat) = 0)]
  rw [List.map_append, List.map_replicate, List.map_append, List.map_replicate]
  have hx0 : (((0 : Nat) &&& 240) >>> 4) = 0 := rfl
  have hz0 : ((0 : Nat) &&& 15) = 0 := rfl
  rw [hx0, hz0]
  simp only [List.map_cons, List.map_nil]
  rw [List.enum_eq_enumFrom, List.enum_eq_enumFrom,
    flatMap_enumFrom_spike _ (xEventsAt_zero 3 4),
    flatMap_enumFrom_spike _ (zEventsAt_zero 3 4)]
  rw [Nat.zero_add]

/-- For `d=3` (`per_row_x = 1`), a lone X-field bit at position 0 maps to
the coordinate `(-0.5, 0.5)`. -/
theorem xEventsAt_d3_bit0 (T : Nat) :
    xEventsAt 3 4 T 1 = [((T : ℚ), -(1 / 2 : ℚ), (1 / 2 : ℚ))] := by
  rw [xEventsAt, show List.range 4 = [0, 1, 2, 3] from rfl]
  rw [List.filterMap_cons, List.filterMap_cons, List.filterMap_cons,
    List.filterMap_cons, List.filterMap_nil]
  rw [if_pos (by decide : (1 : Nat) &&& 1 <<< 0 ≠ 0),
    if_neg (by decide : ¬ (1 : Nat) &&& 1 <<< 1 ≠ 0),
    if_neg (by decide : ¬ (1 : Nat) &&& 1 <<< 2 ≠ 0),
    if_neg (by decide : ¬ (1 : Nat) &&& 1 <<< 3 ≠ 0)]
  norm_num

/-- For `d=3` (`per_row_z = 2`), a lone Z-field bit at position 0 maps to
the coordinate `(0.5, 0.5)` (not `(0.5, -0.5)`). -/
theorem zEventsAt_d3_bit0 (T : Nat) :
    zEventsAt 3 4 T 1 = [((T : ℚ), (1 / 2 : ℚ), (1 / 2 : ℚ))] := by
  rw [zEventsAt, show List.range 4 = [0, 1, 2, 3] from rfl]
  rw [List.filterMap_cons, List.filterMap_cons, List.filterMap_cons,
    List.filterMap_cons, List.filterMap_nil]
  rw [if_pos (by decide : (1 : Nat) &&& 1 <<< 0 ≠ 0),
    if_neg (by decide : ¬ (1 : Nat) &&& 1 <<< 1 ≠ 0),
    if_neg (by decide : ¬ (1 : Nat) &&& 1 <<< 2 ≠ 0),
    if_neg (by decide : ¬ (1 : Nat) &&& 1 <<< 3 ≠ 0)]
  norm_num

/-- **C1 (counterexample)**: for a `d=3` history with a single flip at
Z-field position 0 between rounds 0 and 1, `parse_readout` emits the
event `(0, 0.5, 0.5)` in the `"Z"` list — not `(0, 0.5, -0.5)` as the
claim states. -/
theorem c1_z_golden_value_counterexample :
    parse_readout 3 3
      [[false], [false, false, false, false, false, false, false, true],
        List.replicate 8 false] none =
      some (0, [], [((0 : ℚ), (1 / 2 : ℚ), (1 / 2 : ℚ))]) ∧
    parse_readout 3 3
      [[false], [false, false, false, false, false, false, false, true],
        List.replicate 8 false] none ≠
      some (0, [], [((0 : ℚ), (1 / 2 : ℚ), -(1 / 2 : ℚ))]) := by
  have h := parse_readout_d3_spike 0
    [false, false, false, false, false, false, false, true]
  rw [show bitsToNat [false, false, false, false, false, false, false, true] = 1
      from rfl] at h
  rw [show ((1 : Nat) &&& 240) >>> 4 = 0 from rfl,
    show ((1 : Nat) &&& 15) = 1 from rfl] at h
  rw [xEventsAt_zero, zEventsAt_d3_bit0] at h
  have h' : parse_readout 3 3
      [[false], [false, false, false, false, false, false, false, true],
        List.replicate 8 false] none =
      some (0, [], [((0 : ℚ), (1 / 2 : ℚ), (1 / 2 : ℚ))]) := by
    simpa using h
  refine ⟨h', fun hcontra => ?_⟩
  rw [h'] at hcontra
  simp only [Option.some.injEq, Prod.mk.injEq, List.cons.injEq] at hcontra
  have h3 : ((1 : ℚ) / 2) = -(1 / 2 : ℚ) := hcontra.2.2.1.2.2
  norm_num at h3

/-- **C1 (amended)**: For a `d=3` lattice, `parse_readout` applied to a
syndrome history in which exactly one bit flips between two consecutive
rounds at X-field position 0 emits the single event `(T, -0.5, 0.5)` in
the `"X"` list, and a single flip at Z-field position 0 emits the single
event `(T, 0.5, 0.5)` in the `"Z"` list, where `T` is the index of the
earlier of the two rounds. -/
theorem c1_single_flip_events (T : Nat) :
    parse_readout 3 3
      ([false] :: [false, false, false, true, false, false, false, false] ::
        List.replicate (T + 1) (List.replicate 8 false)) none =
      some (0, [((T : ℚ), -(1 / 2 : ℚ), (1 / 2 : ℚ))], []) ∧
    parse_readout 3 3
      ([false] :: [false, false, false, false, false, false, false, true] ::
        List.replicate (T + 1) (List.replicate 8 false)) none =
      some (0, [], [((T : ℚ), (1 / 2 : ℚ), (1 / 2 : ℚ))]) := by
  constructor
  · have h := parse_readout_d3_spike T
      [false, false, false, true, false, false, false, false]
    rw [show bitsToNat [false, false, false, true, false, false, false, false] = 16
        from rfl] at h
    rw [show ((16 : Nat) &&& 240) >>> 4 = 1 from rfl,
      show ((16 : Nat) &&& 15) = 0 from rfl] at h
    rw [xEventsAt_d3_bit0, zEventsAt_zero] at h
    exact h
  · have h := parse_readout_d3_spike T
      [false, false, false, false, false, false, false, true]
    rw [show bitsToNat [false, false, false, false, false, false, false, true] = 1
        from rfl] at h
    rw [show ((1 : Nat) &&& 240) >>> 4 = 0 from rfl,
      show ((1 : Nat) &&& 15) = 1 from rfl] at h
    rw [xEventsAt_zero, zEventsAt_d3_bit0] at h
    exact h

/-! ### Helper lemmas for C9 -/

/-- The XOR-change sequence has one entry per consecutive pair of
rounds. -/
theorem xorChanges_length (l : List Nat) :
    (xorChanges l).length = l.length - 1 := by
  rw [xorChanges, List.length_zipWith, List.length_tail]
  omega

/-- Every X event generated at time step `T` carries time `T`. -/
theorem mem_xEventsAt_time {dw n T s : Nat} {e : ℚ × ℚ × ℚ}
    (he : e ∈ xEventsAt dw n T s) : e.1 = (T : ℚ) := by
  rw [xEventsAt, List.mem_filterMap] at he
  obtain ⟨loc, _, hsome⟩ := he
  by_cases hc : s &&& (1 <<< loc) ≠ 0
  · rw [if_pos hc] at hsome
    cases hsome
    rfl
  · rw [if_neg hc] at hsome
    cases hsome

/-- Every Z event generated at time step `T` carries time `T`. -/
theorem mem_zEventsAt_time {dw n T s : Nat} {e : ℚ × ℚ × ℚ}
    (he : e ∈ zEventsAt dw n T s) : e.1 = (T : ℚ) := by
  rw [zEventsAt, List.mem_filterMap] at he
  obtain ⟨loc, _, hsome⟩ := he
  by_cases hc : s &&& (1 <<< loc) ≠ 0
  · rw [if_pos hc] at hsome
    cases hsome
    rfl
  · rw [if_neg hc] at hsome
    cases hsome

/-- If the syndrome value at time step `T` is `0`, no event of the
enumerated event stream carries time `T`. -/
theorem filter_time_flatMap_eq_nil (g : Nat → Nat → List (ℚ × ℚ × ℚ))
    (htime : ∀ t s e, e ∈ g t s → e.1 = (t : ℚ))
    (hnil : ∀ t, g t 0 = [])
    (ss : List Nat) (T : Nat) (hs : ss.getD T 0 = 0) :
    ((ss.enum).flatMap (fun p => g p.1 p.2)).filter
      (fun e => decide (e.1 = (T : ℚ))) = [] := by
  rw [List.filter_flatMap, List.flatMap_eq_nil_iff]
  intro p hp
  obtain ⟨n, hn⟩ := List.mem_iff_getElem?.mp hp
  rw [List.getElem?_enum] at hn
  rcases hsn : ss[n]? with _ | s
  · rw [hsn] at hn
    cases hn
  · rw [hsn] at hn
    cases hn
    by_cases hnT : n = T
    · subst hnT
      have hs0 : s = 0 := by
        rw [List.getD_eq_getElem?_getD, hsn, Option.getD_some] at hs
        exact hs
      rw [hs0, hnil, List.filter_nil]
    · rw [List.filter_eq_nil_iff]
      intro e he
      rw [htime n s e he]
      simp only [decide_eq_true_eq]
      exact fun hc => hnT (Nat.cast_inj.mp hc)

/-- **C9**: For every chronological sequence of syndrome rounds,
`parse_readout` produces exactly `rounds − 1` XOR change values, and
whenever two consecutive rounds are identical bitstrings, the time step
between them contributes zero events to both the `"X"` and the `"Z"`
output lists. -/
theorem c9_identical_rounds_no_events (dh dw : Nat) (b : Bool)
    (rounds : List (List Bool)) (T : Nat)
    (hT : T + 1 < rounds.length)
    (heq : rounds.getD T [] = rounds.getD (T + 1) []) :
    (xorChanges (rounds.map bitsToNat)).length = rounds.length - 1 ∧
    ((parse_readout dh dw ([b] :: rounds.reverse) none).getD
        (0, [], [])).2.1.filter (fun e => decide (e.1 = (T : ℚ))) = [] ∧
    ((parse_readout dh dw ([b] :: rounds.reverse) none).getD
        (0, [], [])).2.2.filter (fun e => decide (e.1 = (T : ℚ))) = [] := by
  have hpl : parseLogical dh dw ([b] :: rounds.reverse) none =
      some (bitsToNat [b], rounds.reverse) := rfl
  have hTlt : T < rounds.length := by omega
  have hints : (rounds.reverse.reverse.map bitsToNat) = rounds.map bitsToNat := by
    rw [List.reverse_reverse]
  have hxor0 : (xorChanges (rounds.map bitsToNat)).getD T 0 = 0 := by
    rw [List.getD_eq_getElem?_getD, xorChanges, List.getElem?_zipWith',
      List.getElem?_tail, List.getElem?_map, List.getElem?_map,
      List.getElem?_eq_getElem hTlt, List.getElem?_eq_getElem hT]
    have hveq : bitsToNat rounds[T] = bitsToNat rounds[T + 1] := by
      rw [List.getD_eq_getElem?_getD, List.getD_eq_getElem?_getD,
        List.getElem?_eq_getElem hTlt, List.getElem?_eq_getElem hT,
        Option.getD_some, Option.getD_some] at heq
      rw [heq]
    simp [hveq]
  have hlen : (xorChanges (rounds.map bitsToNat)).length = rounds.length - 1 := by
    rw [xorChanges_length, List.length_map]
  refine ⟨hlen, ?_, ?_⟩
  · simp only [parse_readout, hpl, hints, Option.getD_some]
    apply filter_time_flatMap_eq_nil
      (fun t s => xEventsAt dw (numSynX dh dw) t s)
      (fun t s e => mem_xEventsAt_time)
      (fun t => xEventsAt_zero dw (numSynX dh dw) t)
    rw [List.getD_eq_getElem?_getD, List.getElem?_map]
    rw [List.getD_eq_getElem?_getD] at hxor0
    rcases hx : (xorChanges (rounds.map bitsToNat))[T]? with _ | v
    · rfl
    · rw [hx, Option.getD_some] at hxor0
      rw [hxor0]
      simp
  · simp only [parse_readout, hpl, hints, Option.getD_some]
    by_cases hnz : numSynZ dh dw = 0
    · rw [if_pos hnz]
      apply filter_time_flatMap_eq_nil
        (fun t s => zEventsAt dw (numSynZ dh dw) t s)
        (fun t s e => mem_zEventsAt_time)
        (fun t => zEventsAt_zero dw (numSynZ dh dw) t)
      rfl
    · rw [if_neg hnz]
      apply filter_time_flatMap_eq_nil
        (fun t s => zEventsAt dw (numSynZ dh dw) t s)
        (fun t s e => mem_zEventsAt_time)
        (fun t => zEventsAt_zero dw (numSynZ dh dw) t)
      rw [List.getD_eq_getElem?_getD, List.getElem?_map]
      rw [List.getD_eq_getElem?_getD] at hxor0
      rcases hx : (xorChanges (rounds.map bitsToNat))[T]? with _ | v
      · rfl
      · rw [hx, Option.getD_some] at hxor0
        rw [hxor0]
        simp

/-- Witness for `c9_identical_rounds_no_events`: a `d=3` history of two
identical all-zero rounds. -/
theorem c9_identical_rounds_no_events_witness :
    (xorChanges ([List.replicate 8 false,
        List.replicate 8 false].map bitsToNat)).length =
      ([List.replicate 8 false, List.replicate 8 false] :
        List (List Bool)).length - 1 ∧
    ((parse_readout 3 3
        ([false] :: ([List.replicate 8 false,
          List.replicate 8 false] : List (List Bool)).reverse) none).getD
        (0, [], [])).2.1.filter (fun e => decide (e.1 = ((0 : Nat) : ℚ))) = [] ∧
    ((parse_readout 3 3
        ([false] :: ([List.replicate 8 false,
          List.replicate 8 false] : List (List Bool)).reverse) none).getD
        (0, [], [])).2.2.filter (fun e => decide (e.1 = ((0 : Nat) : ℚ))) = [] :=
  c9_identical_rounds_no_events 3 3 false
    [List.replicate 8 false, List.replicate 8 false] 0 (by decide) rfl

/-! ### Geometry branch shapes -/

/-- `num_syn_X` in odd form: `(dh+1) * per_row_x`. -/
theorem numSynX_odd_form (a c : Nat) :
    numSynX (2 * a + 1) (2 * c + 1) = (2 * a + 2) * c := by
  rw [numSynX]
  have h1 : (2 * a + 1 + 1) / 2 = a + 1 := by omega
  have h2 : 2 * c + 1 - 1 = 2 * c := by omega
  rw [h1, h2]
  ring

/-- `num_syn_Z` in odd form: `per_row_z * (dh-1)`. -/
theorem numSynZ_odd_form (a c : Nat) :
    numSynZ (2 * a + 1) (2 * c + 1) = (c + 1) * (2 * a) := by
  rw [numSynZ]
  have h1 : (2 * c + 1 + 1) / 2 = c + 1 := by omega
  have h2 : 2 * a + 1 - 1 = 2 * a := by omega
  rw [h1, h2]

/-- `per_row_x` in odd form. -/
theorem per_row_x_odd_form (c : Nat) : (2 * c + 1 - 1) / 2 = c := by omega

/-- `per_row_z` in odd form. -/
theorem per_row_z_odd_form (c : Nat) : (2 * c + 1 + 1) / 2 = c + 1 := by omega

/-- `mx` plaquette in conceptual row 0: only the bottom pair exists. -/
theorem mxPlaq_eq_row0 (dh dw syn : Nat) (h0 : syn / ((dw - 1) / 2) = 0) :
    mxPlaq dh dw syn =
      { syn := syn, top_l := none, top_r := none,
        bot_l := some ((syn : Int) * 2), bot_r := some ((syn : Int) * 2 + 1) } := by
  simp only [mxPlaq]
  rw [if_pos h0]

/-- `mx` plaquette in conceptual row `dh`: only the top pair exists. -/
theorem mxPlaq_eq_rowlast (dh dw syn : Nat)
    (hlast : syn / ((dw - 1) / 2) = dh) (hne : dh ≠ 0) :
    mxPlaq dh dw syn =
      { syn := syn,
        top_l := some (((syn / ((dw - 1) / 2) : Nat) - 1 : Int) * (dw : Nat) +
          ((syn % ((dw - 1) / 2) : Nat) : Int) * 2 + 1),
        top_r := some (((syn / ((dw - 1) / 2) : Nat) - 1 : Int) * (dw : Nat) +
          ((syn % ((dw - 1) / 2) : Nat) : Int) * 2 + 2),
        bot_l := none, bot_r := none } := by
  simp only [mxPlaq]
  rw [if_neg (by omega), if_pos hlast]

/-- `mx` plaquette in an interior row: all four references exist. -/
theorem mxPlaq_eq_interior (dh dw syn : Nat)
    (h0 : syn / ((dw - 1) / 2) ≠ 0) (hlast : syn / ((dw - 1) / 2) ≠ dh) :
    mxPlaq dh dw syn =
      { syn := syn,
        top_l := some (((syn / ((dw - 1) / 2) : Nat) - 1 : Int) * (dw : Nat) +
          ((syn % ((dw - 1) / 2) : Nat) : Int) * 2 +
          ((syn / ((dw - 1) / 2) % 2 : Nat) : Int)),
        top_r := some (((syn / ((dw - 1) / 2) : Nat) - 1 : Int) * (dw : Nat) +
          ((syn % ((dw - 1) / 2) : Nat) : Int) * 2 +
          ((syn / ((dw - 1) / 2) % 2 : Nat) : Int) + 1),
        bot_l := some (((syn / ((dw - 1) / 2) : Nat) - 1 : Int) * (dw : Nat) +
          (dw : Nat) + ((syn % ((dw - 1) / 2) : Nat) : Int) * 2 +
          ((syn / ((dw - 1) / 2) % 2 : Nat) : Int)),
        bot_r := some (((syn / ((dw - 1) / 2) : Nat) - 1 : Int) * (dw : Nat) +
          (dw : Nat) + ((syn % ((dw - 1) / 2) : Nat) : Int) * 2 +
          ((syn / ((dw - 1) / 2) % 2 : Nat) : Int) + 1) } := by
  simp only [mxPlaq]
  rw [if_neg h0, if_neg hlast]

/-- `mz` plaquette on the last column (even row parity, last offset):
only the left pair exists. -/
theorem mzPlaq_eq_lastcol (dw syn : Nat)
    (hcond : syn / ((dw + 1) / 2) % 2 = 0 ∧
      syn % ((dw + 1) / 2) = (dw + 1) / 2 - 1) :
    mzPlaq dw syn =
      { syn := syn,
        top_l := some (((syn / ((dw + 1) / 2) : Nat) : Int) * (dw : Nat) +
          ((syn % ((dw + 1) / 2) : Nat) : Int) * 2 -
          ((syn / ((dw + 1) / 2) % 2 : Nat) : Int)),
        top_r := none,
        bot_l := some (((syn / ((dw + 1) / 2) : Nat) : Int) * (dw : Nat) +
          (dw : Nat) + ((syn % ((dw + 1) / 2) : Nat) : Int) * 2 -
          ((syn / ((dw + 1) / 2) % 2 : Nat) : Int)),
        bot_r := none } := by
  simp only [mzPlaq]
  rw [if_pos hcond]

/-- `mz` plaquette on the first column (odd row parity, offset 0): only
the right pair exists. -/
theorem mzPlaq_eq_firstcol (dw syn : Nat)
    (hcond : syn / ((dw + 1) / 2) % 2 = 1 ∧ syn % ((dw + 1) / 2) = 0) :
    mzPlaq dw syn =
      { syn := syn,
        top_l := none,
        top_r := some (((syn / ((dw + 1) / 2) : Nat) : Int) * (dw : Nat) +
          ((syn % ((dw + 1) / 2) : Nat) : Int) * 2 -
          ((syn / ((dw + 1) / 2) % 2 : Nat) : Int) + 1),
        bot_l := none,
        bot_r := some (((syn / ((dw + 1) / 2) : Nat) : Int) * (dw : Nat) +
          (dw : Nat) + ((syn % ((dw + 1) / 2) : Nat) : Int) * 2 -
          ((syn / ((dw + 1) / 2) % 2 : Nat) : Int) + 1) } := by
  simp only [mzPlaq]
  rw [if_neg (by omega), if_pos hcond]

/-- `mz` plaquette away from both side columns: all four references
exist. -/
theorem mzPlaq_eq_middle (dw syn : Nat)
    (hc1 : ¬(syn / ((dw + 1) / 2) % 2 = 0 ∧
      syn % ((dw + 1) / 2) = (dw + 1) / 2 - 1))
    (hc2 : ¬(syn / ((dw + 1) / 2) % 2 = 1 ∧ syn % ((dw + 1) / 2) = 0)) :
    mzPlaq dw syn =
      { syn := syn,
        top_l := some (((syn / ((dw + 1) / 2) : Nat) : Int) * (dw : Nat) +
          ((syn % ((dw + 1) / 2) : Nat) : Int) * 2 -
          ((syn / ((dw + 1) / 2) % 2 : Nat) : Int)),
        top_r := some (((syn / ((dw + 1) / 2) : Nat) : Int) * (dw : Nat) +
          ((syn % ((dw + 1) / 2) : Nat) : Int) * 2 -
          ((syn / ((dw + 1) / 2) % 2 : Nat) : Int) + 1),
        bot_l := some (((syn / ((dw + 1) / 2) : Nat) : Int) * (dw : Nat) +
          (dw : Nat) + ((syn % ((dw + 1) / 2) : Nat) : Int) * 2 -
          ((syn / ((dw + 1) / 2) % 2 : Nat) : Int)),
        bot_r := some (((syn / ((dw + 1) / 2) : Nat) : Int) * (dw : Nat) +
          (dw : Nat) + ((syn % ((dw + 1) / 2) : Nat) : Int) * 2 -
          ((syn / ((dw + 1) / 2) % 2 : Nat) : Int) + 1) } := by
  simp only [mzPlaq]
  rw [if_neg hc1, if_neg hc2]

/-- **C4**: For all odd `dh, dw ≥ 3`, every X-plaquette in conceptual
row 0 has exactly its two bottom data-qubit references present
(`bot_l = syn*2`, `bot_r = syn*2+1`, top pair absent), every X-plaquette
in conceptual row `dh` has exactly its two top references present
(`top_l = (row-1)*dw + offset*2 + 1`, `top_r` one higher, bottom pair
absent), and every X-plaquette in an interior row has all 4 references
present.  (`row = syn // per_row_x`, `offset = syn % per_row_x`,
`per_row_x = (dw-1)//2`; `syn < num_syn_X` keeps `row ≤ dh`.) -/
theorem c4_x_plaquette_boundary_truncation (dh dw syn : Nat)
    (hoh : Odd dh) (how : Odd dw) (hh : 3 ≤ dh) (hw : 3 ≤ dw)
    (hsyn : syn < numSynX dh dw) :
    syn / ((dw - 1) / 2) ≤ dh ∧
    (syn / ((dw - 1) / 2) = 0 →
      mxPlaq dh dw syn =
        { syn := syn, top_l := none, top_r := none,
          bot_l := some ((syn : Int) * 2),
          bot_r := some ((syn : Int) * 2 + 1) }) ∧
    (syn / ((dw - 1) / 2) = dh →
      mxPlaq dh dw syn =
        { syn := syn,
          top_l := some (((syn / ((dw - 1) / 2) : Nat) - 1 : Int) * (dw : Nat) +
            ((syn % ((dw - 1) / 2) : Nat) : Int) * 2 + 1),
          top_r := some (((syn / ((dw - 1) / 2) : Nat) - 1 : Int) * (dw : Nat) +
            ((syn % ((dw - 1) / 2) : Nat) : Int) * 2 + 2),
          bot_l := none, bot_r := none }) ∧
    (syn / ((dw - 1) / 2) ≠ 0 → syn / ((dw - 1) / 2) ≠ dh →
      (mxPlaq dh dw syn).top_l.isSome ∧ (mxPlaq dh dw syn).top_r.isSome ∧
      (mxPlaq dh dw syn).bot_l.isSome ∧ (mxPlaq dh dw syn).bot_r.isSome) := by
  have hodd_h : dh % 2 = 1 := Nat.odd_iff.mp hoh
  have hodd_w : dw % 2 = 1 := Nat.odd_iff.mp how
  have hrow : syn / ((dw - 1) / 2) ≤ dh := by
    obtain ⟨a, ha⟩ : ∃ a, dh = 2 * a + 1 := ⟨dh / 2, by omega⟩
    obtain ⟨c, hc⟩ : ∃ c, dw = 2 * c + 1 := ⟨dw / 2, by omega⟩
    subst ha hc
    rw [numSynX_odd_form] at hsyn
    rw [per_row_x_odd_form]
    have hlt : syn / c < 2 * a + 2 :=
      (Nat.div_lt_iff_lt_mul (by omega : 0 < c)).mpr hsyn
    omega
  refine ⟨hrow, fun h0 => mxPlaq_eq_row0 dh dw syn h0,
    fun hlast => mxPlaq_eq_rowlast dh dw syn hlast (by omega),
    fun h0 hlast => ?_⟩
  rw [mxPlaq_eq_interior dh dw syn h0 hlast]
  exact ⟨rfl, rfl, rfl, rfl⟩

/-- Witness for `c4_x_plaquette_boundary_truncation` at
`dh = dw = 3`, `syn = 1` (an interior-row plaquette, all four
references present). -/
theorem c4_x_plaquette_boundary_truncation_witness :
    1 / ((3 - 1) / 2) ≤ 3 ∧
    ((mxPlaq 3 3 1).top_l.isSome ∧ (mxPlaq 3 3 1).top_r.isSome ∧
      (mxPlaq 3 3 1).bot_l.isSome ∧ (mxPlaq 3 3 1).bot_r.isSome) := by
  have h := c4_x_plaquette_boundary_truncation 3 3 1 ⟨1, by norm_num⟩
    ⟨1, by norm_num⟩ (by norm_num) (by norm_num) (by decide)
  exact ⟨h.1, h.2.2.2 (by decide) (by decide)⟩

/-- **C3**: For all odd `dh, dw ≥ 3`, every non-absent data-qubit index
appearing in any plaquette of the geometry table, for both types `"mx"`
and `"mz"`, lies in the range `[0, num_data)` where
`num_data = dh*dw`. -/
theorem c3_plaquette_refs_in_range (dh dw : Nat)
    (hoh : Odd dh) (how : Odd dw) (hh : 3 ≤ dh) (hw : 3 ≤ dw) :
    ∀ p ∈ geometryMx dh dw ++ geometryMz dh dw, ∀ r ∈ p.refs, ∀ i : Int,
      r = some i → 0 ≤ i ∧ i < ((numData dh dw : Nat) : Int) := by
  have hodd_h : dh % 2 = 1 := Nat.odd_iff.mp hoh
  have hodd_w : dw % 2 = 1 := Nat.odd_iff.mp how
  obtain ⟨a, ha⟩ : ∃ a, dh = 2 * a + 1 := ⟨dh / 2, by omega⟩
  obtain ⟨c, hc⟩ : ∃ c, dw = 2 * c + 1 := ⟨dw / 2, by omega⟩
  subst ha hc
  have ha1 : 1 ≤ a := by omega
  have hc1 : 1 ≤ c := by omega
  simp only [numData]
  intro p hp
  rw [List.mem_append] at hp
  rcases hp with hp | hp
  · -- plaquette of "mx"
    rw [geometryMx, List.mem_map] at hp
    obtain ⟨syn, hmem, rfl⟩ := hp
    rw [List.mem_range, numSynX_odd_form] at hmem
    have hofflt : syn % c < c := Nat.mod_lt _ (by omega)
    have hrowle : syn / c ≤ 2 * a + 1 := by
      have := (Nat.div_lt_iff_lt_mul (by omega : 0 < c)).mpr hmem
      omega
    by_cases h0 : syn / c = 0
    · rw [mxPlaq_eq_row0 (2 * a + 1) (2 * c + 1) syn
        (by rw [per_row_x_odd_form]; exact h0)]
      have hsynlt : syn < c := by
        have hq := Nat.div_add_mod syn c
        rw [h0] at hq
        omega
      have hge : 2 * c + 1 ≤ (2 * a + 1) * (2 * c + 1) := by
        have h := Nat.mul_le_mul_right (2 * c + 1)
          (show 1 ≤ 2 * a + 1 by omega)
        rw [one_mul] at h
        exact h
      intro r hr i hi
      simp only [Plaq.refs, List.mem_cons, List.not_mem_nil, or_false] at hr
      rcases hr with rfl | rfl | rfl | rfl
      · cases hi
      · cases hi
      · cases hi
        omega
      · cases hi
        omega
    · by_cases hlast : syn / c = 2 * a + 1
      · rw [mxPlaq_eq_rowlast (2 * a + 1) (2 * c + 1) syn
          (by rw [per_row_x_odd_form]; exact hlast) (by omega)]
        rw [per_row_x_odd_form, hlast]
        have hconv : (((2 * a + 1 : Nat) : Int) - 1) * ((2 * c + 1 : Nat) : Int) =
            ((2 * a * (2 * c + 1) : Nat) : Int) := by
          push_cast
          ring
        have hRN : (2 * a + 1) * (2 * c + 1) =
            2 * a * (2 * c + 1) + (2 * c + 1) := Nat.succ_mul _ _
        intro r hr i hi
        simp only [Plaq.refs, List.mem_cons, List.not_mem_nil, or_false] at hr
        rcases hr with rfl | rfl | rfl | rfl
        · cases hi
          rw [hconv]
          omega
        · cases hi
          rw [hconv]
          omega
        · cases hi
        · cases hi
      · rw [mxPlaq_eq_interior (2 * a + 1) (2 * c + 1) syn
          (by rw [per_row_x_odd_form]; exact h0)
          (by rw [per_row_x_odd_form]; exact hlast)]
        rw [per_row_x_odd_form]
        have hrow1 : 1 ≤ syn / c := Nat.one_le_iff_ne_zero.mpr h0
        have hconv : (((syn / c : Nat) : Int) - 1) * ((2 * c + 1 : Nat) : Int) =
            (((syn / c - 1) * (2 * c + 1) : Nat) : Int) := by
          rw [Nat.cast_mul, Nat.cast_sub hrow1, Nat.cast_one]
        have hFA : (syn / c - 1) * (2 * c + 1) ≤ (2 * a - 1) * (2 * c + 1) :=
          Nat.mul_le_mul_right _ (by omega)
        have hFB : (2 * a - 1) * (2 * c + 1) + 2 * (2 * c + 1) =
            (2 * a + 1) * (2 * c + 1) := by
          rw [← Nat.add_mul]
          congr 1
          omega
        intro r hr i hi
        simp only [Plaq.refs, List.mem_cons, List.not_mem_nil, or_false] at hr
        rcases hr with rfl | rfl | rfl | rfl <;> cases hi <;> rw [hconv] <;> omega
  · -- plaquette of "mz"
    rw [geometryMz, List.mem_map] at hp
    obtain ⟨syn, hmem, rfl⟩ := hp
    rw [List.mem_range, numSynZ_odd_form] at hmem
    have hofflt : syn % (c + 1) < c + 1 := Nat.mod_lt _ (by omega)
    have hcomm : (c + 1) * (2 * a) = 2 * a * (c + 1) := by ring
    have hrowlt : syn / (c + 1) < 2 * a :=
      (Nat.div_lt_iff_lt_mul (by omega : 0 < c + 1)).mpr (by omega)
    have hconvS : ((syn / (c + 1) : Nat) : Int) * ((2 * c + 1 : Nat) : Int) =
        ((syn / (c + 1) * (2 * c + 1) : Nat) : Int) := by
      rw [Nat.cast_mul]
    have hFS : syn / (c + 1) * (2 * c + 1) ≤ (2 * a - 1) * (2 * c + 1) :=
      Nat.mul_le_mul_right _ (by omega)
    have hFB : (2 * a - 1) * (2 * c + 1) + 2 * (2 * c + 1) =
        (2 * a + 1) * (2 * c + 1) := by
      rw [← Nat.add_mul]
      congr 1
      omega
    by_cases hA : syn / (c + 1) % 2 = 0 ∧ syn % (c + 1) = c + 1 - 1
    · rw [mzPlaq_eq_lastcol (2 * c + 1) syn
        (by rw [per_row_z_odd_form]; exact hA)]
      rw [per_row_z_odd_form]
      intro r hr i hi
      simp only [Plaq.refs, List.mem_cons, List.not_mem_nil, or_false] at hr
      rcases hr with rfl | rfl | rfl | rfl <;> cases hi <;> rw [hconvS] <;> omega
    · by_cases hB : syn / (c + 1) % 2 = 1 ∧ syn % (c + 1) = 0
      · rw [mzPlaq_eq_firstcol (2 * c + 1) syn
          (by rw [per_row_z_odd_form]; exact hB)]
        rw [per_row_z_odd_form]
        intro r hr i hi
        simp only [Plaq.refs, List.mem_cons, List.not_mem_nil, or_false] at hr
        rcases hr with rfl | rfl | rfl | rfl <;> cases hi <;> rw [hconvS] <;>
          omega
      · rw [mzPlaq_eq_middle (2 * c + 1) syn
          (by rw [per_row_z_odd_form]; exact hA)
          (by rw [per_row_z_odd_form]; exact hB)]
        rw [per_row_z_odd_form]
        intro r hr i hi
        simp only [Plaq.refs, List.mem_cons, List.not_mem_nil, or_false] at hr
        rcases hr with rfl | rfl | rfl | rfl <;> cases hi <;> rw [hconvS] <;>
          omega

/-- Witness for `c3_plaquette_refs_in_range` at `dh = dw = 3`, on the
`top_l` reference of the `mx` plaquette with syndrome index 1. -/
theorem c3_plaquette_refs_in_range_witness :
    0 ≤ (1 : Int) ∧ (1 : Int) < ((numData 3 3 : Nat) : Int) :=
  c3_plaquette_refs_in_range 3 3 ⟨1, by norm_num⟩ ⟨1, by norm_num⟩
    (by norm_num) (by norm_num) (mxPlaq 3 3 1) (by decide) (some 1) (by decide)
    1 rfl

/-! ### Helper lemmas for the final-readout extraction -/

/-- The prepending fold used to build a stabilizer string reverses the
mapped list. -/
theorem foldl_cons_map {α β : Type} (f : α → β) :
    ∀ (l : List α) (init : List β),
      l.foldl (fun acc p => f p :: acc) init = (l.map f).reverse ++ init := by
  intro l
  induction l with
  | nil => intro init; simp
  | cons x xs ih =>
    intro init
    rw [List.foldl_cons, ih (f x :: init), List.map_cons, List.reverse_cons,
      List.append_assoc]
    rfl

/-- The geometry table has one `mx` plaquette per X syndrome. -/
theorem length_geometryMx (dh dw : Nat) :
    (geometryMx dh dw).length = numSynX dh dw := by
  rw [geometryMx, List.length_map, List.length_range]

/-- The geometry table has one `mz` plaquette per Z syndrome. -/
theorem length_geometryMz (dh dw : Nat) :
    (geometryMz dh dw).length = numSynZ dh dw := by
  rw [geometryMz, List.length_map, List.length_range]

/-- The stabilizer part of `extractFinalX` in closed form. -/
theorem extractFinalX_snd (dh dw : Nat) (final_readout prev_syndrome : List Bool) :
    (extractFinalX dh dw final_readout prev_syndrome).2 =
      ((geometryMx dh dw).map
        (fun q => plaqParity ((final_readout.map bitVal).reverse) q == 1)).reverse
      ++ prev_syndrome.drop (numSynX dh dw) := by
  rw [extractFinalX]
  rw [foldl_cons_map]
  rw [List.append_nil]

/-- The stabilizer part of `extractFinalZ` in closed form. -/
theorem extractFinalZ_snd (dh dw : Nat) (final_readout prev_syndrome : List Bool) :
    (extractFinalZ dh dw final_readout prev_syndrome).2 =
      prev_syndrome.take (numSynX dh dw) ++
      ((geometryMz dh dw).map
        (fun q => plaqParity ((final_readout.map bitVal).reverse) q == 1)).reverse := by
  rw [extractFinalZ]
  rw [foldl_cons_map]
  rw [List.append_nil]

/-- The `i`-th `mx` plaquette is `mxPlaq dh dw i`. -/
theorem geometryMx_getElem (dh dw i : Nat)
    (h : i < (geometryMx dh dw).length) :
    (geometryMx dh dw)[i] = mxPlaq dh dw i := by
  simp [geometryMx]

/-- The `i`-th `mz` plaquette is `mzPlaq dw i`. -/
theorem geometryMz_getElem (dh dw i : Nat)
    (h : i < (geometryMz dh dw).length) :
    (geometryMz dh dw)[i] = mzPlaq dw i := by
  simp [geometryMz]

/-- `getD` on an all-zero list is always `0`. -/
theorem getD_replicate_zero (n i : Nat) :
    (List.replicate n (0 : Nat)).getD i 0 = 0 := by
  rw [List.getD_eq_getElem?_getD, List.getElem?_replicate]
  by_cases h : i < n
  · rw [if_pos h, Option.getD_some]
  · rw [if_neg h]
    rfl

/-- On an all-zero readout every plaquette parity is `0`. -/
theorem plaqParity_zero (n : Nat) (p : Plaq) :
    plaqParity (List.replicate n 0) p = 0 := by
  have hz : ∀ r : Option Int, refVal (List.replicate n 0) r = 0 := by
    intro r
    cases r with
    | none => rfl
    | some idx => exact getD_replicate_zero n idx.toNat
  rw [plaqParity, hz, hz, hz, hz]

/-- `parityFold` over an all-zero readout is `0`. -/
theorem parityFold_zero (n : Nat) :
    ∀ idxs : List Nat, parityFold (List.replicate n 0) idxs = 0 := by
  have haux : ∀ (idxs : List Nat),
      idxs.foldl (fun acc idx =>
        (acc + (List.replicate n (0 : Nat)).getD idx 0) % 2) 0 = 0 := by
    intro idxs
    induction idxs with
    | nil => rfl
    | cons x xs ih =>
      rw [List.foldl_cons, getD_replicate_zero]
      exact ih
  exact haux

/-- The map of bit values of an all-zero readout string. -/
theorem vals_replicate_false (n : Nat) :
    ((List.replicate n false).map bitVal).reverse = List.replicate n 0 := by
  rw [List.map_replicate, List.reverse_replicate]
  rfl

/-- **C5**: `extract_final_stabilizer_and_logical_readout_x`, given a
final readout string of length `num_data` (reversed internally to
index-ascending order) and a previous syndrome string of width
`num_syn_X + num_syn_Z`, returns a stabilizer string of that same width
whose high `num_syn_X` bits are the X-plaquettes' mod-2 parities (bit
`j` from the left is plaquette `num_syn_X - 1 - j`, absent references
contributing 0) and whose low `num_syn_Z` bits are copied verbatim from
the previous syndrome string; symmetrically for the Z variant; and for
all-zero inputs both variants return the all-zero string of that
width. -/
theorem c5_final_stabilizer_splice (dh dw : Nat)
    (final_readout prev_syndrome : List Bool)
    (hf : final_readout.length = numData dh dw)
    (hp : prev_syndrome.length = numSynX dh dw + numSynZ dh dw) :
    (extractFinalX dh dw final_readout prev_syndrome).2.length =
      numSynX dh dw + numSynZ dh dw ∧
    (∀ j, j < numSynX dh dw →
      (extractFinalX dh dw final_readout prev_syndrome).2.getD j false =
        (plaqParity ((final_readout.map bitVal).reverse)
          (mxPlaq dh dw (numSynX dh dw - 1 - j)) == 1)) ∧
    (extractFinalX dh dw final_readout prev_syndrome).2.drop (numSynX dh dw) =
      prev_syndrome.drop (numSynX dh dw) ∧
    (extractFinalZ dh dw final_readout prev_syndrome).2.length =
      numSynX dh dw + numSynZ dh dw ∧
    (∀ j, j < numSynZ dh dw →
      (extractFinalZ dh dw final_readout prev_syndrome).2.getD
          (numSynX dh dw + j) false =
        (plaqParity ((final_readout.map bitVal).reverse)
          (mzPlaq dw (numSynZ dh dw - 1 - j)) == 1)) ∧
    (extractFinalZ dh dw final_readout prev_syndrome).2.take (numSynX dh dw) =
      prev_syndrome.take (numSynX dh dw) ∧
    extractFinalX dh dw (List.replicate (numData dh dw) false)
        (List.replicate (numSynX dh dw + numSynZ dh dw) false) =
      (0, List.replicate (numSynX dh dw + numSynZ dh dw) false) ∧
    extractFinalZ dh dw (List.replicate (numData dh dw) false)
        (List.replicate (numSynX dh dw + numSynZ dh dw) false) =
      (0, List.replicate (numSynX dh dw + numSynZ dh dw) false) := by
  have hxlen : (((geometryMx dh dw).map
      (fun q => plaqParity ((final_readout.map bitVal).reverse) q == 1)).reverse).length =
      numSynX dh dw := by
    rw [List.length_reverse, List.length_map, length_geometryMx]
  have hzlen : (((geometryMz dh dw).map
      (fun q => plaqParity ((final_readout.map bitVal).reverse) q == 1)).reverse).length =
      numSynZ dh dw := by
    rw [List.length_reverse, List.length_map, length_geometryMz]
  refine ⟨?_, ?_, ?_, ?_, ?_, ?_, ?_, ?_⟩
  · rw [extractFinalX_snd, List.length_append, hxlen, List.length_drop, hp]
    omega
  · intro j hj
    rw [extractFinalX_snd]
    have hjlt : j < (((geometryMx dh dw).map
        (fun q => plaqParity ((final_readout.map bitVal).reverse) q == 1)).reverse).length := by
      rw [hxlen]; exact hj
    have hjlt2 : j < (((geometryMx dh dw).map
        (fun q => plaqParity ((final_readout.map bitVal).reverse) q == 1)).reverse ++
        prev_syndrome.drop (numSynX dh dw)).length := by
      rw [List.length_append]; omega
    rw [List.getD_eq_getElem _ _ hjlt2, List.getElem_append_left hjlt,
      List.getElem_reverse, List.getElem_map, geometryMx_getElem]
    simp only [List.length_map, length_geometryMx]
  · rw [extractFinalX_snd]
    have : numSynX dh dw = (((geometryMx dh dw).map
        (fun q => plaqParity ((final_readout.map bitVal).reverse) q == 1)).reverse).length := hxlen.symm
    rw [this, List.drop_left]
  · rw [extractFinalZ_snd, List.length_append, hzlen, List.length_take, hp]
    omega
  · intro j hj
    rw [extractFinalZ_snd]
    have htk : (prev_syndrome.take (numSynX dh dw)).length = numSynX dh dw := by
      rw [List.length_take, hp]
      omega
    have hjlt : numSynX dh dw + j < ((prev_syndrome.take (numSynX dh dw)) ++
        ((geometryMz dh dw).map
          (fun q => plaqParity ((final_readout.map bitVal).reverse) q == 1)).reverse).length := by
      rw [List.length_append, htk, hzlen]
      omega
    rw [List.getD_eq_getElem _ _ hjlt,
      List.getElem_append_right (by rw [htk]; omega)]
    have hjlt3 : numSynX dh dw + j - (prev_syndrome.take (numSynX dh dw)).length
        = j := by
      rw [htk]; omega
    simp only [hjlt3]
    rw [List.getElem_reverse, List.getElem_map, geometryMz_getElem]
    simp only [List.length_map, length_geometryMz]
  · rw [extractFinalZ_snd]
    set L := prev_syndrome.take (numSynX dh dw) with hL
    have hlen : numSynX dh dw = L.length := by
      rw [hL, List.length_take, hp]
      omega
    rw [hlen, List.take_left]
  · have hpar : ((geometryMx dh dw).map
        (fun q => plaqParity (((List.replicate (numData dh dw) false).map bitVal).reverse) q == 1)) =
        List.replicate (numSynX dh dw) false := by
      rw [List.eq_replicate]
      refine ⟨by rw [List.length_map, length_geometryMx], ?_⟩
      intro b hb
      rw [List.mem_map] at hb
      obtain ⟨q, _, rfl⟩ := hb
      rw [vals_replicate_false, plaqParity_zero]
      rfl
    have h1 : (extractFinalX dh dw (List.replicate (numData dh dw) false)
        (List.replicate (numSynX dh dw + numSynZ dh dw) false)).2 =
        List.replicate (numSynX dh dw + numSynZ dh dw) false := by
      rw [extractFinalX_snd, hpar, List.reverse_replicate, List.drop_replicate,
        Nat.add_sub_cancel_left, ← List.replicate_add]
    have h2 : (extractFinalX dh dw (List.replicate (numData dh dw) false)
        (List.replicate (numSynX dh dw + numSynZ dh dw) false)).1 = 0 := by
      rw [extractFinalX]
      simp only []
      rw [vals_replicate_false]
      exact parityFold_zero _ _
    exact Prod.ext h2 h1
  · have hpar : ((geometryMz dh dw).map
        (fun q => plaqParity (((List.replicate (numData dh dw) false).map bitVal).reverse) q == 1)) =
        List.replicate (numSynZ dh dw) false := by
      rw [List.eq_replicate]
      refine ⟨by rw [List.length_map, length_geometryMz], ?_⟩
      intro b hb
      rw [List.mem_map] at hb
      obtain ⟨q, _, rfl⟩ := hb
      rw [vals_replicate_false, plaqParity_zero]
      rfl
    have h1 : (extractFinalZ dh dw (List.replicate (numData dh dw) false)
        (List.replicate (numSynX dh dw + numSynZ dh dw) false)).2 =
        List.replicate (numSynX dh dw + numSynZ dh dw) false := by
      rw [extractFinalZ_snd, hpar, List.reverse_replicate, List.take_replicate,
        Nat.min_eq_left (Nat.le_add_right _ _), ← List.replicate_add]
    have h2 : (extractFinalZ dh dw (List.replicate (numData dh dw) false)
        (List.replicate (numSynX dh dw + numSynZ dh dw) false)).1 = 0 := by
      rw [extractFinalZ]
      simp only []
      rw [vals_replicate_false]
      exact parityFold_zero _ _
    exact Prod.ext h2 h1

/-- Witness for `c5_final_stabilizer_splice` at `dh = dw = 3` on a
non-trivial readout, with the per-bit conjuncts instantiated at
`j = 0`. -/
theorem c5_final_stabilizer_splice_witness :
    (extractFinalX 3 3 [true, false, false, false, true, false, false, false, true]
      [true, false, true, false, false, true, false, true]).2.length =
      numSynX 3 3 + numSynZ 3 3 ∧
    (extractFinalX 3 3 [true, false, false, false, true, false, false, false, true]
      [true, false, true, false, false, true, false, true]).2.getD 0 false =
      (plaqParity (([true, false, false, false, true, false, false, false,
          true].map bitVal).reverse)
        (mxPlaq 3 3 (numSynX 3 3 - 1 - 0)) == 1) ∧
    (extractFinalX 3 3 [true, false, false, false, true, false, false, false, true]
      [true, false, true, false, false, true, false, true]).2.drop (numSynX 3 3) =
      [true, false, true, false, false, true, false, true].drop (numSynX 3 3) ∧
    (extractFinalZ 3 3 [true, false, false, false, true, false, false, false, true]
      [true, false, true, false, false, true, false, true]).2.length =
      numSynX 3 3 + numSynZ 3 3 ∧
    (extractFinalZ 3 3 [true, false, false, false, true, false, false, false, true]
      [true, false, true, false, false, true, false, true]).2.getD
        (numSynX 3 3 + 0) false =
      (plaqParity (([true, false, false, false, true, false, false, false,
          true].map bitVal).reverse)
        (mzPlaq 3 (numSynZ 3 3 - 1 - 0)) == 1) ∧
    (extractFinalZ 3 3 [true, false, false, false, true, false, false, false, true]
      [true, false, true, false, false, true, false, true]).2.take (numSynX 3 3) =
      [true, false, true, false, false, true, false, true].take (numSynX 3 3) ∧
    extractFinalX 3 3 (List.replicate (numData 3 3) false)
        (List.replicate (numSynX 3 3 + numSynZ 3 3) false) =
      (0, List.replicate (numSynX 3 3 + numSynZ 3 3) false) ∧
    extractFinalZ 3 3 (List.replicate (numData 3 3) false)
        (List.replicate (numSynX 3 3 + numSynZ 3 3) false) =
      (0, List.replicate (numSynX 3 3 + numSynZ 3 3) false) := by
  have h := c5_final_stabilizer_splice 3 3
    [true, false, false, false, true, false, false, false, true]
    [true, false, true, false, false, true, false, true] (by decide) (by decide)
  exact ⟨h.1, h.2.1 0 (by decide), h.2.2.1, h.2.2.2.1,
    h.2.2.2.2.1 0 (by decide), h.2.2.2.2.2.1, h.2.2.2.2.2.2.1,
    h.2.2.2.2.2.2.2⟩

/-! ### Helper lemmas for the logical readout -/

/-- The mod-2 accumulation loop computes the sum of the addressed values
mod 2. -/
theorem parityFold_eq_sum (vals : List Nat) (idxs : List Nat) :
    parityFold vals idxs = ((idxs.map fun i => vals.getD i 0).sum) % 2 := by
  have haux : ∀ (l : List Nat) (acc : Nat),
      l.foldl (fun a i => (a + vals.getD i 0) % 2) (acc % 2) =
        (acc + (l.map fun i => vals.getD i 0).sum) % 2 := by
    intro l
    induction l with
    | nil => intro acc; simp
    | cons x xs ih =>
      intro acc
      rw [List.foldl_cons]
      have h1 : (acc % 2 + vals.getD x 0) % 2 = (acc + vals.getD x 0) % 2 := by
        omega
      rw [h1, ih (acc + vals.getD x 0), List.map_cons, List.sum_cons]
      omega
  have h0 := haux idxs 0
  rw [Nat.zero_mod, Nat.zero_add] at h0
  exact h0

/-- `range'` with a stride is the stride multiples. -/
theorem range'_eq_map_mul (step : Nat) :
    ∀ (n s : Nat), List.range' s n step =
      (List.range n).map (fun m => s + m * step) := by
  intro n
  induction n with
  | zero => intro s; simp
  | succ k ih =>
    intro s
    rw [List.range'_succ, ih (s + step), List.range_succ_eq_map, List.map_cons,
      List.map_map]
    congr 1
    · omega
    · apply List.map_congr_left
      intro m _
      simp only [Function.comp_apply, Nat.succ_eq_add_one]
      ring

/-- Changing the addressed values at exactly one in-range index `m0`
exchanges `f m0` and the new value in the sum. -/
theorem sum_map_range_flip (f g : Nat → Nat) :
    ∀ (n : Nat) (m0 : Nat), m0 < n → (∀ m, m < n → m ≠ m0 → g m = f m) →
      ((List.range n).map g).sum + f m0 = ((List.range n).map f).sum + g m0 := by
  intro n
  induction n with
  | zero => intro m0 hm; omega
  | succ k ih =>
    intro m0 hm hagree
    rw [List.range_succ]
    simp only [List.map_append, List.sum_append, List.map_cons, List.map_nil,
      List.sum_cons, List.sum_nil]
    by_cases hk : m0 = k
    · subst hk
      have hcong : (List.range m0).map g = (List.range m0).map f := by
        apply List.map_congr_left
        intro m hmem
        rw [List.mem_range] at hmem
        exact hagree m (by omega) (by omega)
      rw [hcong]
      omega
    · have heq := ih m0 (by omega) (fun m hmlt hne => hagree m (by omega) hne)
      have hfk : g k = f k := hagree k (by omega) (fun h => hk h.symm)
      omega

/-- The X logical readout is the mod-2 sum of the leftmost-column data
qubits (index-ascending indices `0, dw, 2*dw, ...`). -/
theorem extractFinalX_fst (dh dw : Nat) (final_readout prev_syndrome : List Bool) :
    (extractFinalX dh dw final_readout prev_syndrome).1 =
      (((List.range dh).map (fun m =>
        ((final_readout.map bitVal).reverse).getD (m * dw) 0)).sum) % 2 := by
  rw [extractFinalX]
  simp only []
  rw [parityFold_eq_sum, range'_eq_map_mul, List.map_map]
  congr 2
  apply List.map_congr_left
  intro m _
  simp only [Function.comp_apply, Nat.zero_add]

/-- The Z logical readout is the mod-2 sum of the topmost-row data
qubits (index-ascending indices `0 .. dw-1`). -/
theorem extractFinalZ_fst (dh dw : Nat) (final_readout prev_syndrome : List Bool) :
    (extractFinalZ dh dw final_readout prev_syndrome).1 =
      (((List.range dw).map (fun m =>
        ((final_readout.map bitVal).reverse).getD m 0)).sum) % 2 := by
  rw [extractFinalZ]
  simp only []
  rw [parityFold_eq_sum]

/-- `getD` after `set` at a different position. -/
theorem getD_set_ne (l : List Nat) (i j : Nat) (a : Nat) (h : i ≠ j) :
    (l.set i a).getD j 0 = l.getD j 0 := by
  rw [List.getD_eq_getElem?_getD, List.getD_eq_getElem?_getD,
    List.getElem?_set, if_neg h]

/-- `getD` after `set` at the same in-range position. -/
theorem getD_set_self (l : List Nat) (i : Nat) (a : Nat) (h : i < l.length) :
    (l.set i a).getD i 0 = a := by
  rw [List.getD_eq_getElem?_getD, List.getElem?_set, if_pos rfl, if_pos h,
    Option.getD_some]

/-- All bit values of a readout string are at most 1. -/
theorem vals_le_one (s : List Bool) (k : Nat)
    (h : k < ((s.map bitVal).reverse).length) :
    ((s.map bitVal).reverse).getD k 0 ≤ 1 := by
  rw [List.getD_eq_getElem _ _ h]
  have hmem := List.getElem_mem h
  rw [List.mem_reverse, List.mem_map] at hmem
  obtain ⟨b, _, hb⟩ := hmem
  rw [← hb]
  cases b <;> simp [bitVal]

/-- **C6**: For every full-lattice readout string of length `num_data`,
the X logical readout equals the XOR (mod-2 sum) of the data-qubit
values at the leftmost-column indices `0, dw, 2*dw, ...`, and the Z
logical readout equals the XOR of the values at the topmost-row indices
`0..dw-1` (indices in the reversed, index-ascending bit order);
consequently flipping a single leftmost-column qubit (ascending index
`k` with `k % dw = 0`) toggles the X readout and leaves the Z readout
unchanged unless that qubit is also in the top row (`k < dw`). -/
theorem c6_logical_readout (dh dw : Nat)
    (final_readout final_flipped prev_syndrome prev_syndrome2 : List Bool)
    (k : Nat)
    (hf : final_readout.length = numData dh dw)
    (hk : k < numData dh dw) (hkcol : k % dw = 0)
    (hflip : (final_flipped.map bitVal).reverse =
      ((final_readout.map bitVal).reverse).set k
        (1 - ((final_readout.map bitVal).reverse).getD k 0)) :
    (extractFinalX dh dw final_readout prev_syndrome).1 =
      (((List.range dh).map (fun m =>
        ((final_readout.map bitVal).reverse).getD (m * dw) 0)).sum) % 2 ∧
    (extractFinalZ dh dw final_readout prev_syndrome).1 =
      (((List.range dw).map (fun m =>
        ((final_readout.map bitVal).reverse).getD m 0)).sum) % 2 ∧
    (extractFinalX dh dw final_flipped prev_syndrome2).1 =
      1 - (extractFinalX dh dw final_readout prev_syndrome).1 ∧
    (dw ≤ k → (extractFinalZ dh dw final_flipped prev_syndrome2).1 =
      (extractFinalZ dh dw final_readout prev_syndrome).1) := by
  have hvlen : ((final_readout.map bitVal).reverse).length = numData dh dw := by
    rw [List.length_reverse, List.length_map, hf]
  have hdwpos : 0 < dw := by
    rcases Nat.eq_zero_or_pos dw with h | h
    · subst h
      rw [numData, Nat.mul_zero] at hk
      omega
    · exact h
  refine ⟨extractFinalX_fst dh dw final_readout prev_syndrome,
    extractFinalZ_fst dh dw final_readout prev_syndrome, ?_, ?_⟩
  · -- flipping a leftmost-column qubit toggles the X readout
    rw [extractFinalX_fst, extractFinalX_fst, hflip]
    have hm0 : k / dw < dh := by
      rw [numData] at hk
      exact (Nat.div_lt_iff_lt_mul hdwpos).mpr (by omega)
    have hm0k : k / dw * dw = k := Nat.div_mul_cancel (Nat.dvd_of_mod_eq_zero hkcol)
    have hvk : ((final_readout.map bitVal).reverse).getD k 0 ≤ 1 :=
      vals_le_one final_readout k (by omega)
    have hagree : ∀ m, m < dh → m ≠ k / dw →
        (((final_readout.map bitVal).reverse).set k
          (1 - ((final_readout.map bitVal).reverse).getD k 0)).getD (m * dw) 0 =
        ((final_readout.map bitVal).reverse).getD (m * dw) 0 := by
      intro m hmlt hne
      apply getD_set_ne
      intro hcontra
      apply hne
      apply Nat.eq_of_mul_eq_mul_right hdwpos
      rw [hm0k]
      exact hcontra.symm
    have hflipsum := sum_map_range_flip
      (fun m => ((final_readout.map bitVal).reverse).getD (m * dw) 0)
      (fun m => (((final_readout.map bitVal).reverse).set k
        (1 - ((final_readout.map bitVal).reverse).getD k 0)).getD (m * dw) 0)
      dh (k / dw) hm0 hagree
    simp only [] at hflipsum
    rw [hm0k, getD_set_self _ k _ (by omega)] at hflipsum
    omega
  · -- a flip outside the top row leaves the Z readout unchanged
    intro hdwk
    rw [extractFinalZ_fst, extractFinalZ_fst, hflip]
    congr 2
    apply List.map_congr_left
    intro m hmem
    rw [List.mem_range] at hmem
    exact getD_set_ne _ k m _ (by omega)

/-- Witness for `c6_logical_readout` at `dh = dw = 3`,
`k = 3` (a leftmost-column qubit outside the top row). -/
theorem c6_logical_readout_witness :
    (extractFinalX 3 3 (List.replicate 9 false) (List.replicate 8 false)).1 =
      (((List.range 3).map (fun m =>
        (((List.replicate 9 false).map bitVal).reverse).getD (m * 3) 0)).sum) % 2 ∧
    (extractFinalZ 3 3 (List.replicate 9 false) (List.replicate 8 false)).1 =
      (((List.range 3).map (fun m =>
        (((List.replicate 9 false).map bitVal).reverse).getD m 0)).sum) % 2 ∧
    (extractFinalX 3 3 [false, false, false, false, false, true, false, false, false]
        (List.replicate 8 false)).1 =
      1 - (extractFinalX 3 3 (List.replicate 9 false) (List.replicate 8 false)).1 ∧
    (extractFinalZ 3 3
        [false, false, false, false, false, true, false, false, false]
        (List.replicate 8 false)).1 =
      (extractFinalZ 3 3 (List.replicate 9 false) (List.replicate 8 false)).1 := by
  have h := c6_logical_readout 3 3 (List.replicate 9 false)
    [false, false, false, false, false, true, false, false, false]
    (List.replicate 8 false) (List.replicate 8 false) 3
    (by decide) (by decide) (by decide) (by decide)
  exact ⟨h.1, h.2.1, h.2.2.1, h.2.2.2 (by norm_num)⟩

end Qtcodes
